import Mathlib

/-!
Verification of the gitvibe diff-chunking / multi-pass commit-message pipeline.

Strings from the TypeScript source are modelled as `List Char` (`Str`); JS
`String.prototype` operations (`slice`, `split`, `trim`, `lastIndexOf`,
`replace` with a global literal-pattern regex) are given explicit executable
definitions below, each one translated from the corresponding source function.
-/

/-- Character-list model of a JS string. -/
abbrev Str := List Char

/-- Newline character. -/
def nlc : Char := '\n'

/-- Coerce a Lean string literal to the `Str` model. -/
def strL (s : String) : Str := s.data

/-- Whitespace test used by the model of `String.prototype.trim`
(space, tab, newline, carriage return — the whitespace actually occurring
in diff text). -/
def isWsC (c : Char) : Bool := c == ' ' || c == '\t' || c == '\n' || c == '\r'

/-- Remove trailing whitespace (the right half of JS `trim`). -/
def dropTrailWs (s : Str) : Str := (s.reverse.dropWhile isWsC).reverse

/-- Model of JS `String.prototype.trim`: strip whitespace at both ends. -/
def jsTrim (s : Str) : Str := (dropTrailWs s).dropWhile isWsC

/-- Model of JS `split("\n")`: always returns at least one piece; pieces
contain no newline; separators are consumed. -/
def splitNl : Str → List Str
  | [] => [[]]
  | c :: r =>
    if c = nlc then [] :: splitNl r
    else
      match splitNl r with
      | [] => [[c]]
      | p :: ps => (c :: p) :: ps

/-!
### String-oriented chunker (`GitAnalyzer.chunkDiffString`)

Translated from `src/core/git/analyzer.ts`.  JS `diff.lastIndexOf("\n", end)`
is the largest index `i ≤ end` holding a newline (`none` models `-1`); the
float comparison `lastNewline > start + maxDiffSize * 0.8` is modelled by the
exact rational inequality `5*i > 5*start + 4*max`.
-/

/-- Largest index `i ≤ pos` with `d[i] = '\n'` (JS `lastIndexOf("\n", pos)`);
`none` models the JS result `-1`. -/
def lastNlLe (d : Str) (pos : Nat) : Option Nat :=
  ((List.range (pos + 1)).filter (fun i => d.get? i = some nlc)).getLast?

/-- The window end selected for the chunk starting at `start` (the JS
variable `end`, with `end0 = start + maxDiffSize` inlined): nominally
`start + max`, backed off to the last newline at or before it when that
newline lies strictly after 80% of the budget. -/
def selEnd (d : Str) (max start : Nat) : Nat :=
  if start + max < d.length then
    match lastNlLe d (start + max) with
    | some i => if 5 * start + 4 * max < 5 * i then i else start + max
    | none => start + max
  else start + max

/-- The `while (start < diff.length)` loop of `chunkDiffString`, with explicit
fuel (the loop advances `start` by at least 1 each iteration, so fuel
`d.length` suffices from `start = 0`). -/
def chunkLoop (d : Str) (max ov : Nat) : Nat → Nat → List Str
  | 0, _ => []
  | fuel + 1, start =>
    if start < d.length then
      (d.drop start).take (selEnd d max start - start) ::
        chunkLoop d max ov fuel (Nat.max (start + 1) (selEnd d max start - ov))
    else []

/-- Model of `GitAnalyzer.chunkDiffString(diff, maxDiffSize, chunkOverlap)`. -/
def chunkDiffString (d : Str) (max ov : Nat) : List Str :=
  if d.length ≤ max then [d] else chunkLoop d max ov d.length 0

/-- The reconstruction procedure the spec describes for the chunk round-trip:
keep the first chunk whole and strip the `ov`-sized duplicated leading region
from every later chunk before concatenating. -/
def reconWithOverlap (ov : Nat) : List Str → Str
  | [] => []
  | c :: cs => c ++ (cs.map (List.drop ov)).flatten

/-!
### Diff parsing (`GitService.getDiffSummary`)

Translated from `src/core/git/index.ts`.  The JS loop keeps `currentFile` as a
mutable object reference that is pushed into `files` at each `diff --git`
line and once more at the end; when the header regex fails to match,
`currentFile` is NOT reset, so the very same object can be pushed several
times and keeps being mutated after it was pushed.  The model therefore
tracks, for each file object, how many times it was pushed (`pc` for the
live object, the count stored with each finished object), and materialises
the final array by replicating each object's final state.
-/

/-- One element of `GitDiff["files"]`. -/
structure GitFile where
  filename : Str
  status : Str
  additions : Nat
  deletions : Nat
  content : Str
deriving DecidableEq

/-- The literal `"diff --git a/"` prefix of the header regex. -/
def hdrPre : Str := strL "diff --git a/"

/-- Candidate split points of the regex `diff --git a\/(.+) b\/(.+)` inside
the text after `"diff --git a/"`: positions `j` where `" b/"` starts, with at
least one character before (first `.+`) and after (second `.+`). -/
def bSplits (tail : Str) : List Nat :=
  (List.range tail.length).filter
    (fun j => decide (1 ≤ j) && (strL " b/").isPrefixOf (tail.drop j) &&
      decide (j + 3 < tail.length))

/-- Model of `line.match(/diff --git a\/(.+) b\/(.+)/)`, returning the first
capture group (the only one the source uses).  The match starts at the first
position where the literal prefix occurs and a valid split exists; the greedy
first `.+` takes the LAST valid `" b/"` occurrence. -/
def headerMatch (line : Str) : Option Str :=
  (((List.range (line.length + 1)).filter
      (fun i => hdrPre.isPrefixOf (line.drop i) &&
        !(bSplits (line.drop (i + hdrPre.length))).isEmpty)).head?).map
    (fun i =>
      (line.drop (i + hdrPre.length)).take
        ((bSplits (line.drop (i + hdrPre.length))).getLast?.getD 0))

/-- Parser state: finished file objects with their push counts, the push
count of the live `currentFile` object, and the live object itself. -/
structure ParseSt where
  groups : List (Nat × GitFile)
  pc : Nat
  cur : Option GitFile

/-- A fresh `DiffFileChange` record as built at a matching header line. -/
def mkFile (name : Str) : GitFile :=
  { filename := name, status := strL "modified", additions := 0, deletions := 0,
    content := [] }

/-- Update the live object's status, if there is one. -/
def setStatus (st : ParseSt) (s : Str) : ParseSt :=
  match st.cur with
  | some f => { st with cur := some { f with status := s } }
  | none => st

/-- Append a `+`/`-` content line to the live object, bumping the counter. -/
def addContentLine (st : ParseSt) (line : Str) (isAdd : Bool) : ParseSt :=
  match st.cur with
  | some f =>
    { st with
      cur := some
        { f with
          additions := if isAdd then f.additions + 1 else f.additions,
          deletions := if isAdd then f.deletions else f.deletions + 1,
          content := f.content ++ line ++ [nlc] } }
  | none => st

/-- One line of the `getDiffSummary` state machine. -/
def parseLine (st : ParseSt) (line : Str) : ParseSt :=
  if (strL "diff --git").isPrefixOf line then
    match st.cur with
    | some f =>
      match headerMatch line with
      | some name =>
        { groups := st.groups ++ [(st.pc + 1, f)], pc := 0, cur := some (mkFile name) }
      | none => { st with pc := st.pc + 1 }
    | none =>
      match headerMatch line with
      | some name => { st with pc := 0, cur := some (mkFile name) }
      | none => st
  else if (strL "new file mode").isPrefixOf line then setStatus st (strL "added")
  else if (strL "deleted file mode").isPrefixOf line then setStatus st (strL "deleted")
  else if (strL "@@").isPrefixOf line then st
  else if (strL "+").isPrefixOf line && !(strL "+++").isPrefixOf line then
    addContentLine st line true
  else if (strL "-").isPrefixOf line && !(strL "---").isPrefixOf line then
    addContentLine st line false
  else st

/-- Model of `GitService.getDiffSummary(diff).files`: run the state machine
over the lines and materialise the pushed array (each object appears once per
push, in push order, in its final mutated state). -/
def getDiffSummary (diff : Str) : List GitFile :=
  let st := (splitNl diff).foldl parseLine ⟨[], 0, none⟩
  (st.groups.map (fun g => List.replicate g.1 g.2)).flatten ++
    (match st.cur with
     | some f => List.replicate (st.pc + 1) f
     | none => [])

/-!
### File-structured chunker (`GitService.chunkDiff`)
-/

/-- The per-file block `"File: <name>\nStatus: <status>\n<content>"`. -/
def fileBlock (f : GitFile) : Str :=
  strL "File: " ++ f.filename ++ [nlc] ++ strL "Status: " ++ f.status ++ [nlc] ++
    f.content

/-- The line-splitting inner loop of `chunkDiff` for an oversized file block:
`tempChunk` accumulates lines; when the next line would overflow, the trimmed
buffer is flushed (even when empty, as in the source). -/
def innerLoop (max : Nat) : List Str → Str → List Str
  | [], t => if t = [] then [] else [jsTrim t]
  | line :: rest, t =>
    if max < t.length + line.length then
      jsTrim t :: innerLoop max rest (line ++ [nlc])
    else innerLoop max rest (t ++ line ++ [nlc])

/-- The per-file outer loop of `chunkDiff`: greedily pack whole file blocks
into `currentChunk`, flushing it when the next block would overflow and
line-splitting blocks that alone exceed the budget. -/
def outerLoop (max : Nat) : List GitFile → Str → List Str
  | [], cc => if cc = [] then [] else [jsTrim cc]
  | f :: rest, cc =>
    if max < cc.length + (fileBlock f).length then
      (if cc = [] then [] else [jsTrim cc]) ++
        (if max < (fileBlock f).length then
          innerLoop max (splitNl (fileBlock f)) [] ++ outerLoop max rest []
        else outerLoop max rest (fileBlock f))
    else outerLoop max rest (cc ++ fileBlock f ++ [nlc])

/-- Model of `GitService.chunkDiff(diff, maxChunkSize)`. -/
def chunkDiff (diff : Str) (max : Nat) : List Str :=
  outerLoop max (getDiffSummary diff) []

/-!
### Prompt rendering (`AIService.buildPrompt`)

The source does `template.replace(new RegExp("{" + key + "}", "g"), value)`
for each entry in order.  For the word-character keys the program uses
(`diff`, `n_commit`, `messages`, `commits`) the regex is a literal pattern;
the model below performs the corresponding literal global scan, including the
JS replacement-string escapes `$$`, `$&`, `` $` `` and `$'` (no capture
groups exist in these patterns, so `$1` etc. stay literal).
-/

/-- Left brace / right brace / dollar and the replacement-escape characters,
written via code points. -/
def lbc : Char := Char.ofNat 123

/-- Right brace. -/
def rbc : Char := Char.ofNat 125

/-- Dollar sign. -/
def dlc : Char := '$'

/-- Ampersand. -/
def ampc : Char := '&'

/-- Backquote (code point 96). -/
def bqc : Char := Char.ofNat 96

/-- Single quote (code point 39). -/
def sqc : Char := Char.ofNat 39

/-- Expansion of a JS replacement string at one match: `$$ → $`, `$& →`
matched text, `` $` `` → original text before the match, `$' →` original
text after the match; any other `$`-sequence stays literal. -/
def expandRep (matched before after : Str) : Str → Str
  | [] => []
  | [c] => [c]
  | c :: dch :: r =>
    if c = dlc && dch = dlc then dlc :: expandRep matched before after r
    else if c = dlc && dch = ampc then matched ++ expandRep matched before after r
    else if c = dlc && dch = bqc then before ++ expandRep matched before after r
    else if c = dlc && dch = sqc then after ++ expandRep matched before after r
    else c :: expandRep matched before after (dch :: r)

/-- The left-to-right global scan of `String.prototype.replace` with a
literal pattern: at each position either consume a match (emitting the
expanded replacement) or copy one character.  Fuel `t.length` suffices since
the cursor advances by at least one each step (`pat` is nonempty at every
call site). -/
def replaceScan (t pat rep : Str) : Nat → Nat → Str
  | 0, i => t.drop i
  | fuel + 1, i =>
    if t.length ≤ i then []
    else if pat.isPrefixOf (t.drop i) then
      expandRep pat (t.take i) (t.drop (i + pat.length)) rep ++
        replaceScan t pat rep fuel (i + pat.length)
    else (t.drop i).take 1 ++ replaceScan t pat rep fuel (i + 1)

/-- Model of `t.replace(new RegExp(pat-literal, "g"), rep)`. -/
def jsReplaceAll (t pat rep : Str) : Str :=
  if pat = [] then t else replaceScan t pat rep t.length 0

/-- The placeholder `{key}` for a variable name. -/
def placeholder (key : Str) : Str := lbc :: key ++ [rbc]

/-- Model of `AIService.buildPrompt` (and the identical
`AIGenerator.buildPrompt`): substitute the entries one at a time, in order. -/
def buildPrompt (template : Str) (vars : List (Str × Str)) : Str :=
  vars.foldl (fun acc kv => jsReplaceAll acc (placeholder kv.1) kv.2) template

/-!
### Structured-output parsing and the summary reducer (`AIService`)

`JSON.parse` is kept abstract: the reducer theorems quantify over any parse
function `jp : Str → Option JsonVal` (`none` models a thrown `SyntaxError`).
The zod schema `{ results: z.array(z.string()).min(1) }` is modelled
concretely on parsed values.  The generation gateway is an oracle
`gw : Nat → Str` giving the text returned by the k-th `generateText` call of
the run (calls are numbered in issue order).
-/

/-- Parsed JSON values. -/
inductive JsonVal where
  | null : JsonVal
  | bool : Bool → JsonVal
  | num : Int → JsonVal
  | str : Str → JsonVal
  | arr : List JsonVal → JsonVal
  | obj : List (Str × JsonVal) → JsonVal

/-- Read a JSON string value. -/
def JsonVal.asStr : JsonVal → Option Str
  | .str s => some s
  | _ => none

/-- First field with the given name, as JS object key lookup. -/
def jsonField (fields : List (Str × JsonVal)) (name : Str) : Option JsonVal :=
  (fields.find? (fun kv => kv.1 = name)).map (·.2)

/-- Model of `CommitMessageSchema.safeParse`: an object whose `results` field
is a non-empty array of strings; extra fields are ignored (zod default). -/
def schemaCheck : JsonVal → Option (List Str)
  | .obj fields =>
    match jsonField fields (strL "results") with
    | some (.arr xs) =>
      match xs.mapM JsonVal.asStr with
      | some rs => if rs.length ≥ 1 then some rs else none
      | none => none
    | _ => none
  | _ => none

/-- Decimal rendering of a `Nat`, as JS `Number.prototype.toString`. -/
def natToStr (n : Nat) : Str := (toString n).data

/-- JS `Array.prototype.join("\n")`. -/
def joinNl (l : List Str) : Str := (List.intersperse [nlc] l).flatten

/-- The configuration fields that affect commit-message generation control
flow and prompts (provider/model/token fields do not). -/
structure Config where
  commit_prompt : Str
  merge_commit_prompt : Str
  commit_variations : Nat

/-- The prompt built for one chunk (also the single-pass prompt of
`handleSmallDiff`, which is constructed identically). -/
def chunkPrompt (cfg : Config) (chunk : Str) : Str :=
  buildPrompt cfg.commit_prompt
    [(strL "diff", chunk), (strL "n_commit", natToStr cfg.commit_variations)]

/-- The merge-pass prompt: collected messages rendered as `- ` bullets. -/
def mergePrompt (cfg : Config) (msgs : List Str) : Str :=
  buildPrompt cfg.merge_commit_prompt
    [(strL "messages", joinNl (msgs.map (fun m => strL "- " ++ m)))]

/-- What one chunk's model response contributes to `chunkMessages`:
a thrown `JSON.parse` (`jp = none`) is caught and contributes nothing; a
schema-valid parse pushes the parsed results AND the trimmed raw text; valid
JSON failing the schema pushes only the trimmed raw text. -/
def chunkContribution (jp : Str → Option JsonVal) (text : Str) : List Str :=
  match jp text with
  | none => []
  | some v =>
    match schemaCheck v with
    | some rs => rs ++ [jsTrim text]
    | none => [jsTrim text]

/-- The chunk-pass loop of `handleLargeDiff`: one gateway call per chunk, in
order; `k` is the index of the next gateway call. -/
def chunkPassLoop (jp : Str → Option JsonVal) (gw : Nat → Str) :
    List Str → Nat → List Str
  | [], _ => []
  | _chunk :: rest, k => chunkContribution jp (gw k) ++ chunkPassLoop jp gw rest (k + 1)

/-- The error message thrown when the merge-pass response fails parsing. -/
def mergeParseErr : Str := strL "Failed to parse final commit message JSON."

/-- The error message thrown when the single-pass response fails parsing. -/
def smallParseErr : Str := strL "Failed to parse commit message JSON."

/-- Model of `AIService.handleLargeDiff`: returns the prompts issued (in call
order: one per chunk, then the merge prompt) and either the parsed merge-pass
value or the thrown error. -/
def handleLargeDiff (jp : Str → Option JsonVal) (cfg : Config) (gw : Nat → Str)
    (diff : Str) : List Str × Except Str JsonVal :=
  let chunks := chunkDiff diff 4000
  let msgs := chunkPassLoop jp gw chunks 0
  let prompts := chunks.map (chunkPrompt cfg) ++ [mergePrompt cfg msgs]
  (prompts,
    match jp (gw chunks.length) with
    | some v =>
      match schemaCheck v with
      | some _ => Except.ok v
      | none => Except.error mergeParseErr
    | none => Except.error mergeParseErr)

/-- Model of `AIService.handleSmallDiff`: one prompt, one gateway call,
parsed the same way. -/
def handleSmallDiff (jp : Str → Option JsonVal) (cfg : Config) (gw : Nat → Str)
    (diff : Str) : List Str × Except Str JsonVal :=
  ([chunkPrompt cfg diff],
    match jp (gw 0) with
    | some v =>
      match schemaCheck v with
      | some _ => Except.ok v
      | none => Except.error smallParseErr
    | none => Except.error smallParseErr)

/-- Model of `AIService.generateCommitMessage`: the size-admission branch
`diff.length < 50 * 1000` selects `handleLargeDiff` (as in the source), the
other branch `handleSmallDiff`; the final value is re-validated against the
schema and its `results` become the variations (`[]` when invalid). -/
def generateCommitMessage (jp : Str → Option JsonVal) (cfg : Config)
    (gw : Nat → Str) (diff : Str) : List Str × Except Str (List Str) :=
  let out :=
    if diff.length < 50 * 1000 then handleLargeDiff jp cfg gw diff
    else handleSmallDiff jp cfg gw diff
  (out.1, out.2.map (fun v =>
    match schemaCheck v with
    | some rs => rs
    | none => []))

/-!
### Concrete oracles and inputs used by witnesses and counterexamples
-/

/-- A parse oracle on which every response is invalid JSON. -/
def noParse : Str → Option JsonVal := fun _ => none

/-- A schema-valid parsed value `{"results": ["feat: x"]}`. -/
def jvOk : JsonVal := .obj [(strL "results", .arr [.str (strL "feat: x")])]

/-- A parse oracle mapping the response text `"M"` to `jvOk`. -/
def jpM : Str → Option JsonVal := fun t => if t = strL "M" then some jvOk else none

/-- A gateway whose every response is `"M"`. -/
def gwM : Nat → Str := fun _ => strL "M"

/-- A gateway whose every response is `"not json"`. -/
def gwBad : Nat → Str := fun _ => strL "not json"

/-- A tiny configuration with placeholder-free templates. -/
def cfg0 : Config :=
  { commit_prompt := strL "P", merge_commit_prompt := strL "Q", commit_variations := 3 }

/-- A well-formed one-file diff, far below the 50000-character threshold. -/
def dSmall : Str := strL "diff --git a/f b/f\n+x"

/-- A diff whose second `diff --git` line does not match the header regex. -/
def dBadHdr : Str := strL "diff --git a/f b/f\n+x\ndiff --git malformed\n+y\n"
/-- `splitNl` never returns an empty list of pieces. -/
theorem splitNl_ne_nil (s : Str) : splitNl s ≠ [] := by
  cases s with
  | nil => simp [splitNl]
  | cons c r =>
    simp only [splitNl]
    split
    · simp
    · split <;> simp

/-- No piece produced by `splitNl` contains a newline. -/
theorem splitNl_no_nl (s : Str) : ∀ p ∈ splitNl s, nlc ∉ p := by
  induction s with
  | nil => intro p hp; simp [splitNl] at hp; simp [hp]
  | cons c r ih =>
    intro p hp
    simp only [splitNl] at hp
    by_cases hc : c = nlc
    · rw [if_pos hc] at hp
      rcases List.mem_cons.mp hp with h | h
      · simp [h]
      · exact ih p h
    · rw [if_neg hc] at hp
      rcases hr : splitNl r with _ | ⟨q, qs⟩
      · exact absurd hr (splitNl_ne_nil r)
      · rw [hr] at hp
        rcases List.mem_cons.mp hp with h | h
        · subst h
          intro hmem
          rcases List.mem_cons.mp hmem with h1 | h2
          · exact hc h1.symm
          · exact ih q (by rw [hr]; exact List.mem_cons_self q qs) h2
        · exact ih p (by rw [hr]; exact List.mem_cons_of_mem q h)

/-- `jsTrim` output is a sublist of the input. -/
theorem jsTrim_sublist (s : Str) : List.Sublist (jsTrim s) s := by
  have h1 : List.Sublist (dropTrailWs s) s := by
    have hsuf : s.reverse.dropWhile isWsC <:+ s.reverse := List.dropWhile_suffix _
    have h2 := List.reverse_sublist.mpr hsuf.sublist
    simpa using h2
  exact ((List.dropWhile_suffix _).sublist).trans h1

/-- `jsTrim` never lengthens a string. -/
theorem jsTrim_length_le (s : Str) : (jsTrim s).length ≤ s.length :=
  (jsTrim_sublist s).length_le

/-- Appending a trailing whitespace character does not change `dropTrailWs`. -/
theorem dropTrailWs_append_ws (u : Str) (c : Char) (hc : isWsC c = true) :
    dropTrailWs (u ++ [c]) = dropTrailWs u := by
  simp [dropTrailWs, List.dropWhile, hc]

/-- Trimming a string that ends in a whitespace character yields something no
longer than the string without that character. -/
theorem jsTrim_append_ws_length (u : Str) (c : Char) (hc : isWsC c = true) :
    (jsTrim (u ++ [c])).length ≤ u.length := by
  have h : jsTrim (u ++ [c]) = jsTrim u := by
    simp [jsTrim, dropTrailWs_append_ws u c hc]
  rw [h]
  exact jsTrim_length_le u

/-- If `u` has no newline, trimming `u ++ "\n"` yields a newline-free string. -/
theorem jsTrim_append_nl_no_nl (u : Str) (hu : nlc ∉ u) :
    nlc ∉ jsTrim (u ++ [nlc]) := by
  have h : jsTrim (u ++ [nlc]) = jsTrim u := by
    simp [jsTrim, dropTrailWs_append_ws u nlc (by simp [isWsC, nlc])]
  rw [h]
  intro hmem
  exact hu ((jsTrim_sublist u).subset hmem)

/-- If `lastNlLe` finds an index, it is at most the search position. -/
theorem lastNlLe_le {d : Str} {pos i : Nat} (h : lastNlLe d pos = some i) :
    i ≤ pos := by
  have hmem := List.mem_of_getLast?_eq_some h
  have := (List.mem_filter.mp hmem).1
  have := List.mem_range.mp this
  omega

/-- The selected window end never exceeds `start + max`. -/
theorem selEnd_le (d : Str) (max start : Nat) : selEnd d max start ≤ start + max := by
  unfold selEnd
  split
  · rcases h : lastNlLe d (start + max) with _ | i
    · simp
    · simp only
      split
      · exact lastNlLe_le h
      · exact Nat.le_refl _
  · exact Nat.le_refl _

/-- With overlap strictly below 80% of the budget, every selected window end
lies at least `ov + 1` beyond its start (so the cursor is never clamped). -/
theorem selEnd_ge (d : Str) (max start ov : Nat) (hov : 5 * (ov + 1) ≤ 4 * max) :
    start + ov + 1 ≤ selEnd d max start := by
  unfold selEnd
  split
  · rcases h : lastNlLe d (start + max) with _ | i
    · simp; omega
    · simp only
      split
      · next hgt => omega
      · omega
  · omega

/-- Every chunk produced by the string chunker loop has length at most `max`. -/
theorem chunkLoop_length_le (d : Str) (max ov : Nat) :
    ∀ fuel start c, c ∈ chunkLoop d max ov fuel start → c.length ≤ max := by
  intro fuel
  induction fuel with
  | zero => intro start c hc; simp [chunkLoop] at hc
  | succ f ih =>
    intro start c hc
    simp only [chunkLoop] at hc
    split at hc
    · rcases List.mem_cons.mp hc with h | h
      · subst h
        calc ((d.drop start).take (selEnd d max start - start)).length
            ≤ selEnd d max start - start := List.length_take_le _ _
          _ ≤ max := by have := selEnd_le d max start; omega
      · exact ih _ c h
    · simp at hc

/-- Round-trip core: dropping the leading `ov` characters of every chunk the
loop emits from position `start` and concatenating yields exactly the suffix
of the input from `start + ov`, provided the overlap stays below 80% of the
budget (so the cursor is never clamped). -/
theorem chunkLoop_drop_flatten (d : Str) (max ov : Nat)
    (hov : 5 * (ov + 1) ≤ 4 * max) :
    ∀ fuel start, d.length ≤ fuel + start →
      ((chunkLoop d max ov fuel start).map (List.drop ov)).flatten =
        d.drop (start + ov) := by
  intro fuel
  induction fuel with
  | zero =>
    intro start h
    simp only [chunkLoop, List.map_nil, List.flatten_nil]
    exact (List.drop_eq_nil_of_le (by omega)).symm
  | succ f ih =>
    intro start h
    simp only [chunkLoop]
    by_cases hs : start < d.length
    · rw [if_pos hs]
      have hge : start + ov + 1 ≤ selEnd d max start := selEnd_ge d max start ov hov
      have hmax : Nat.max (start + 1) (selEnd d max start - ov) =
          selEnd d max start - ov := Nat.max_eq_right (by omega)
      rw [hmax]
      simp only [List.map_cons, List.flatten_cons]
      rw [ih (selEnd d max start - ov) (by omega)]
      have h1 : selEnd d max start - ov + ov = selEnd d max start := by omega
      rw [h1, List.drop_take, List.drop_drop]
      have h2 : selEnd d max start - start - ov = selEnd d max start - (start + ov) := by
        omega
      have h3 : d.drop (selEnd d max start) =
          (d.drop (start + ov)).drop (selEnd d max start - (start + ov)) := by
        rw [List.drop_drop]; congr 1; omega
      rw [h2, h3, List.take_append_drop]
    · rw [if_neg hs]
      simp only [List.map_nil, List.flatten_nil]
      exact (List.drop_eq_nil_of_le (by omega)).symm

/-- Boundary sharing: with un-clamped overlap, the first `ov` characters of
each chunk form a suffix of the preceding chunk. -/
theorem chunkLoop_chain (d : Str) (max ov : Nat)
    (hov : 5 * (ov + 1) ≤ 4 * max) :
    ∀ fuel start,
      List.Chain' (fun a b => b.take ov <:+ a) (chunkLoop d max ov fuel start) := by
  intro fuel
  induction fuel with
  | zero => intro start; simp [chunkLoop]
  | succ f ih =>
    intro start
    simp only [chunkLoop]
    by_cases hs : start < d.length
    · rw [if_pos hs, List.chain'_cons']
      refine ⟨?_, ih _⟩
      intro y hy
      have hge : start + ov + 1 ≤ selEnd d max start := selEnd_ge d max start ov hov
      have hmax : Nat.max (start + 1) (selEnd d max start - ov) =
          selEnd d max start - ov := Nat.max_eq_right (by omega)
      rw [hmax] at hy
      cases f with
      | zero => simp [chunkLoop] at hy
      | succ g =>
        by_cases hs' : selEnd d max start - ov < d.length
        · simp only [chunkLoop, if_pos hs', List.head?_cons, Option.mem_def,
            Option.some.injEq] at hy
          subst hy
          have hge' : (selEnd d max start - ov) + ov + 1 ≤
              selEnd d max (selEnd d max start - ov) :=
            selEnd_ge d max (selEnd d max start - ov) ov hov
          rw [List.take_take, Nat.min_eq_left (by omega)]
          refine ⟨(d.drop start).take (selEnd d max start - ov - start), ?_⟩
          have hadd : (selEnd d max start - ov - start) + ov =
              selEnd d max start - start := by omega
          have hd : d.drop (selEnd d max start - ov) =
              (d.drop start).drop (selEnd d max start - ov - start) := by
            rw [List.drop_drop]; congr 1; omega
          rw [hd, ← List.take_add, hadd]
        · simp [chunkLoop, if_neg hs'] at hy
    · rw [if_neg hs]
      simp

/-- Flushing an inner-loop buffer that satisfies the loop invariant never
produces an over-budget chunk containing a newline. -/
theorem innerFlush_ok (max : Nat) (t : Str)
    (ht : t = [] ∨ ∃ u, t = u ++ [nlc] ∧ (t.length ≤ max + 1 ∨ nlc ∉ u)) :
    max < (jsTrim t).length → nlc ∉ jsTrim t := by
  intro hlen
  rcases ht with h | ⟨u, hu, hcase⟩
  · subst h; simp [jsTrim, dropTrailWs] at hlen
  · subst hu
    rcases hcase with hle | hnl
    · exfalso
      have := jsTrim_append_ws_length u nlc (by simp [isWsC, nlc])
      have hul : u.length + 1 ≤ max + 1 := by simpa using hle
      omega
    · exact jsTrim_append_nl_no_nl u hnl

/-- Inner-loop invariant: every emitted chunk is within budget or is a single
(newline-free) line. -/
theorem innerLoop_no_long_nl (max : Nat) :
    ∀ (lines : List Str) (t : Str), (∀ l ∈ lines, nlc ∉ l) →
      (t = [] ∨ ∃ u, t = u ++ [nlc] ∧ (t.length ≤ max + 1 ∨ nlc ∉ u)) →
      ∀ c ∈ innerLoop max lines t, max < c.length → nlc ∉ c := by
  intro lines
  induction lines with
  | nil =>
    intro t _ ht c hc
    simp only [innerLoop] at hc
    split at hc
    · simp at hc
    · rcases List.mem_singleton.mp hc with h
      subst h
      exact innerFlush_ok max t ht
  | cons line rest ih =>
    intro t hlines ht c hc
    simp only [innerLoop] at hc
    split at hc
    · rcases List.mem_cons.mp hc with h | h
      · subst h
        exact innerFlush_ok max t ht
      · refine ih (line ++ [nlc]) (fun l hl => hlines l (List.mem_cons_of_mem _ hl))
          (Or.inr ⟨line, rfl, Or.inr (hlines line (List.mem_cons_self _ _))⟩) c h
    · next hof =>
      refine ih (t ++ line ++ [nlc]) (fun l hl => hlines l (List.mem_cons_of_mem _ hl))
        (Or.inr ⟨t ++ line, by simp, Or.inl ?_⟩) c hc
      simp only [List.append_assoc, List.length_append, List.length_cons,
        List.length_nil]
      omega

/-- Flushing an outer-loop buffer that satisfies the loop invariant never
produces an over-budget chunk at all. -/
theorem outerFlush_ok (max : Nat) (cc : Str)
    (hcc : cc = [] ∨ cc.length ≤ max ∨ ∃ u, cc = u ++ [nlc] ∧ cc.length ≤ max + 1) :
    (jsTrim cc).length ≤ max := by
  rcases hcc with h | h | ⟨u, hu, hle⟩
  · subst h; simp [jsTrim, dropTrailWs]
  · exact le_trans (jsTrim_length_le cc) h
  · subst hu
    have := jsTrim_append_ws_length u nlc (by simp [isWsC, nlc])
    have hul : u.length + 1 ≤ max + 1 := by simpa using hle
    omega

/-- Outer-loop invariant: every chunk `chunkDiff` emits is within budget or is
a single (newline-free) line. -/
theorem outerLoop_no_long_nl (max : Nat) :
    ∀ (files : List GitFile) (cc : Str),
      (cc = [] ∨ cc.length ≤ max ∨ ∃ u, cc = u ++ [nlc] ∧ cc.length ≤ max + 1) →
      ∀ c ∈ outerLoop max files cc, max < c.length → nlc ∉ c := by
  intro files
  induction files with
  | nil =>
    intro cc hcc c hc hlen
    simp only [outerLoop] at hc
    split at hc
    · simp at hc
    · rcases List.mem_singleton.mp hc with h
      subst h
      exact absurd hlen (by have := outerFlush_ok max cc hcc; omega)
  | cons f rest ih =>
    intro cc hcc c hc
    simp only [outerLoop] at hc
    split at hc
    · rcases List.mem_append.mp hc with h | h
      · intro hlen
        have hcf : c = jsTrim cc := by
          split at h
          · simp at h
          · exact List.mem_singleton.mp h
        subst hcf
        exact absurd hlen (by have := outerFlush_ok max cc hcc; omega)
      · split at h
        · rcases List.mem_append.mp h with h2 | h2
          · exact innerLoop_no_long_nl max (splitNl (fileBlock f)) []
              (splitNl_no_nl _) (Or.inl rfl) c h2
          · exact ih [] (Or.inl rfl) c h2
        · next hfb =>
          exact ih (fileBlock f) (Or.inr (Or.inl (by omega))) c h
    · next hof =>
      refine ih (cc ++ fileBlock f ++ [nlc]) (Or.inr (Or.inr ⟨cc ++ fileBlock f, by simp, ?_⟩)) c hc
      simp only [List.append_assoc, List.length_append, List.length_cons,
        List.length_nil]
      omega

/-- Every chunk of the file-structured chunker is within budget unless it is
a single atomic (newline-free) line. -/
theorem chunkDiff_no_long_nl (diff : Str) (max : Nat) :
    ∀ c ∈ chunkDiff diff max, max < c.length → nlc ∉ c :=
  outerLoop_no_long_nl max (getDiffSummary diff) [] (Or.inl rfl)

/-- Every chunk of the string-oriented chunker has length at most the budget. -/
theorem chunkDiffString_length_le (d : Str) (max ov : Nat) :
    ∀ c ∈ chunkDiffString d max ov, c.length ≤ max := by
  intro c hc
  unfold chunkDiffString at hc
  split at hc
  · next h => rcases List.mem_singleton.mp hc with rfl; exact h
  · exact chunkLoop_length_le d max ov d.length 0 c hc

/-- A pattern matching at some position of `t` is an infix of `t`. -/
theorem infix_of_isPrefixOf_drop {pat t : Str} {j : Nat}
    (h : pat.isPrefixOf (t.drop j) = true) : pat <:+: t := by
  have hp : pat <+: t.drop j := List.isPrefixOf_iff_prefix.mp h
  rcases hp with ⟨r, hr⟩
  exact ⟨t.take j, r, by rw [List.append_assoc, hr, List.take_append_drop]⟩

/-- If the pattern occurs nowhere, the replace scan copies its input. -/
theorem replaceScan_no_match {t pat rep : Str}
    (h : ∀ j : Nat, ¬ pat.isPrefixOf (t.drop j) = true) :
    ∀ fuel i, replaceScan t pat rep fuel i = t.drop i := by
  intro fuel
  induction fuel with
  | zero => intro i; rfl
  | succ f ih =>
    intro i
    simp only [replaceScan]
    by_cases hi : t.length ≤ i
    · rw [if_pos hi]
      exact (List.drop_eq_nil_of_le hi).symm
    · rw [if_neg hi, if_neg (h i), ih (i + 1)]
      have hlt : i < t.length := by omega
      rw [List.drop_eq_getElem_cons hlt]
      simp

/-- If `pat` is not an infix of `t`, JS global replace returns `t`
unchanged: extra mapping keys are silently ignored. -/
theorem jsReplaceAll_of_not_occurs {t pat rep : Str} (h : ¬ pat <:+: t) :
    jsReplaceAll t pat rep = t := by
  unfold jsReplaceAll
  by_cases hp : pat = []
  · exact absurd (hp ▸ List.nil_infix) h
  · rw [if_neg hp]
    have hnm : ∀ j : Nat, ¬ pat.isPrefixOf (t.drop j) = true := fun j hj =>
      h (infix_of_isPrefixOf_drop hj)
    rw [replaceScan_no_match hnm t.length 0]
    simp

/-- A template containing none of the mapping's placeholders renders
unchanged (this also subsumes rendering with an empty mapping). -/
theorem buildPrompt_of_no_placeholder :
    ∀ (vars : List (Str × Str)) (t : Str),
      (∀ kv ∈ vars, ¬ (placeholder kv.1 <:+: t)) → buildPrompt t vars = t := by
  intro vars
  induction vars with
  | nil => intro t _; rfl
  | cons kv rest ih =>
    intro t h
    simp only [buildPrompt, List.foldl_cons]
    rw [jsReplaceAll_of_not_occurs (h kv (List.mem_cons_self _ _))]
    exact ih t (fun kv2 h2 => h kv2 (List.mem_cons_of_mem _ h2))

/-- Dollar-free replacement strings expand to themselves. -/
theorem expandRep_no_dollar (m b a : Str) :
    ∀ r : Str, dlc ∉ r → expandRep m b a r = r := by
  intro r
  induction r with
  | nil => intro _; rfl
  | cons c rest ih =>
    intro h
    have hc : ¬ c = dlc := fun hcd => h (hcd ▸ List.mem_cons_self _ _)
    have hrest : dlc ∉ rest := fun hm => h (List.mem_cons_of_mem _ hm)
    cases rest with
    | nil => rfl
    | cons dch r2 =>
      simp only [expandRep]
      rw [if_neg (by simp [hc]), if_neg (by simp [hc]), if_neg (by simp [hc]),
        if_neg (by simp [hc])]
      rw [ih hrest]

/-- One matching step of the replace scan. -/
theorem replaceScan_match_step {t pat rep : Str} {f i : Nat}
    (hi : i < t.length) (hm : pat.isPrefixOf (t.drop i) = true) :
    replaceScan t pat rep (f + 1) i =
      expandRep pat (t.take i) (t.drop (i + pat.length)) rep ++
        replaceScan t pat rep f (i + pat.length) := by
  simp only [replaceScan]
  rw [if_neg (by omega), if_pos hm]

/-- The scan emits nothing once the cursor passes the end. -/
theorem replaceScan_stop {t pat rep : Str} {f i : Nat} (hi : t.length ≤ i) :
    replaceScan t pat rep f i = [] := by
  cases f with
  | zero => exact List.drop_eq_nil_of_le hi
  | succ g => simp only [replaceScan]; rw [if_pos hi]

/-- Global, literal substitution on the spec's own template `{a}{a}`: a
dollar-free value is inserted literally at every occurrence. -/
theorem buildPrompt_global_aa (v : Str) (hv : dlc ∉ v) :
    buildPrompt (placeholder ['a'] ++ placeholder ['a']) [(['a'], v)] = v ++ v := by
  have hT : placeholder ['a'] ++ placeholder ['a'] =
      [lbc, 'a', rbc, lbc, 'a', rbc] := by decide
  have hP : placeholder ['a'] = [lbc, 'a', rbc] := by decide
  simp only [buildPrompt, List.foldl_cons, List.foldl_nil]
  rw [hT, hP]
  unfold jsReplaceAll
  rw [if_neg (by decide : ¬([lbc, 'a', rbc] : Str) = [])]
  have hlen : ([lbc, 'a', rbc, lbc, 'a', rbc] : Str).length = 6 := by decide
  rw [hlen]
  rw [show (6 : Nat) = 5 + 1 from rfl]
  rw [replaceScan_match_step (by decide) (by decide)]
  have h1 : (0 : Nat) + ([lbc, 'a', rbc] : Str).length = 3 := by decide
  rw [h1]
  have h2 : ([lbc, 'a', rbc, lbc, 'a', rbc] : Str).take 0 = [] := by decide
  have h3 : ([lbc, 'a', rbc, lbc, 'a', rbc] : Str).drop 3 = [lbc, 'a', rbc] := by decide
  rw [h2, h3]
  rw [show (5 : Nat) = 4 + 1 from rfl]
  rw [replaceScan_match_step (by decide) (by decide)]
  have h4 : (3 : Nat) + ([lbc, 'a', rbc] : Str).length = 6 := by decide
  rw [h4]
  have h5 : ([lbc, 'a', rbc, lbc, 'a', rbc] : Str).take 3 = [lbc, 'a', rbc] := by decide
  have h6 : ([lbc, 'a', rbc, lbc, 'a', rbc] : Str).drop 6 = [] := by decide
  rw [h5, h6]
  rw [replaceScan_stop (by decide)]
  rw [expandRep_no_dollar _ _ _ v hv, expandRep_no_dollar _ _ _ v hv]
  simp

/-!
### Claim theorems
-/

/-- **C1** (code bug, evaluation at the failing input): the spec requires a
diff below the 50000-character size-admission threshold to be handled by a
single generation call, but `generateCommitMessage` inverts the branch: the
21-character diff `dSmall` is routed through the chunk-and-merge path and
issues 2 gateway calls (1 chunk + 1 merge), not 1. -/
theorem claim1_small_diff_takes_chunk_path :
    dSmall.length < 50 * 1000 ∧
      (generateCommitMessage noParse cfg0 gwBad dSmall).1.length = 2 := by
  decide

/-- **C2** (counterexample): in a run whose single chunk's response is not
valid JSON (`noParse` models the thrown `JSON.parse`), the reducer collects
ZERO results — not the single-element raw-text fallback per chunk the claim
requires (1 chunk should give 1 collected result). -/
theorem claim2_chunk_failure_counterexample :
    (chunkDiff dSmall 4000).length = 1 ∧
      chunkPassLoop noParse gwBad (chunkDiff dSmall 4000) 0 = [] := by
  decide

/-- **C2** (amended): when a chunk's response text is not valid JSON the
chunk is logged and contributes nothing at all; when it is valid JSON but
fails the schema, only the trimmed raw text is retained as the single
fallback entry; in every case the reducer still proceeds to the merge pass,
issuing exactly one gateway call per chunk plus the merge call and never
raising at the chunk stage. -/
theorem claim2_chunk_failure_amended (jp : Str → Option JsonVal) (cfg : Config)
    (gw : Nat → Str) (diff : Str) :
    (handleLargeDiff jp cfg gw diff).1.length = (chunkDiff diff 4000).length + 1 ∧
    (∀ t, jp t = none → chunkContribution jp t = []) ∧
    (∀ t v, jp t = some v → schemaCheck v = none →
      chunkContribution jp t = [jsTrim t]) := by
  refine ⟨by simp [handleLargeDiff], ?_, ?_⟩
  · intro t h
    simp [chunkContribution, h]
  · intro t v h hs
    simp [chunkContribution, h, hs]

/-- Witness for the amended C2 at a concrete run. -/
theorem claim2_chunk_failure_witness :
    (handleLargeDiff noParse cfg0 gwBad dSmall).1.length =
      (chunkDiff dSmall 4000).length + 1 ∧
    chunkContribution noParse (strL "not json") = [] :=
  ⟨(claim2_chunk_failure_amended noParse cfg0 gwBad dSmall).1,
   (claim2_chunk_failure_amended noParse cfg0 gwBad dSmall).2.1 _ rfl⟩

/-- **C3** (confirmed): a chunk-and-merge run issues exactly one gateway call
per chunk (prompts in chunk order) plus one merge call — `N + 1` calls for
`N` chunks — and, when the merge-pass response parses, the returned value is
exactly the parsed merge response, not a concatenation of the partial
per-chunk results. -/
theorem claim3_reducer_calls_and_merge_result (jp : Str → Option JsonVal)
    (cfg : Config) (gw : Nat → Str) (diff : Str) (v : JsonVal) (rs : List Str)
    (hparse : jp (gw (chunkDiff diff 4000).length) = some v)
    (hschema : schemaCheck v = some rs) :
    handleLargeDiff jp cfg gw diff =
      ((chunkDiff diff 4000).map (chunkPrompt cfg) ++
        [mergePrompt cfg (chunkPassLoop jp gw (chunkDiff diff 4000) 0)],
       Except.ok v) ∧
    (handleLargeDiff jp cfg gw diff).1.length = (chunkDiff diff 4000).length + 1 := by
  constructor
  · simp [handleLargeDiff, hparse, hschema]
  · simp [handleLargeDiff]

/-- Witness for C3 at a concrete run (one chunk, schema-valid responses). -/
theorem claim3_reducer_witness :
    (handleLargeDiff jpM cfg0 gwM dSmall).1 = [strL "P", strL "Q"] ∧
    (handleLargeDiff jpM cfg0 gwM dSmall).2 = Except.ok jvOk := by
  have h := claim3_reducer_calls_and_merge_result jpM cfg0 gwM dSmall jvOk
    [strL "feat: x"] rfl rfl
  refine ⟨?_, ?_⟩
  · rw [congrArg Prod.fst h.1]
    decide
  · rw [congrArg Prod.snd h.1]

/-- **C4** (confirmed): when the merge-pass response fails structured parsing
(invalid JSON or schema mismatch), `handleLargeDiff` surfaces the
`"Failed to parse final commit message JSON."` error to the caller, and the
prompts issued remain exactly the `N` chunk calls plus the one merge call —
no further gateway call and no further fallback happens. -/
theorem claim4_merge_parse_fatal (jp : Str → Option JsonVal) (cfg : Config)
    (gw : Nat → Str) (diff : Str)
    (hfail : ∀ v, jp (gw (chunkDiff diff 4000).length) = some v →
      schemaCheck v = none) :
    (handleLargeDiff jp cfg gw diff).2 = Except.error mergeParseErr ∧
    (handleLargeDiff jp cfg gw diff).1.length = (chunkDiff diff 4000).length + 1 := by
  constructor
  · rcases h : jp (gw (chunkDiff diff 4000).length) with _ | v
    · simp [handleLargeDiff, h]
    · simp [handleLargeDiff, h, hfail v h]
  · simp [handleLargeDiff]

/-- Witness for C4 at a concrete run with an unparsable merge response. -/
theorem claim4_merge_parse_witness :
    (handleLargeDiff noParse cfg0 gwBad dSmall).2 = Except.error mergeParseErr ∧
    (handleLargeDiff noParse cfg0 gwBad dSmall).1.length =
      (chunkDiff dSmall 4000).length + 1 :=
  claim4_merge_parse_fatal noParse cfg0 gwBad dSmall
    (fun v h => by simp [noParse] at h)

/-- **C5** (counterexample): the string-oriented chunker DOES split a line
mid-line: a 9-character single atomic line (no newline) over a 4-character
budget comes back as more than one chunk. -/
theorem claim5_midline_counterexample :
    nlc ∉ strL "aaaaaaaaa" ∧ 4 < (strL "aaaaaaaaa").length ∧
      1 < (chunkDiffString (strL "aaaaaaaaa") 4 0).length := by
  decide

/-- **C5** (amended): for an over-budget diff, every chunk of the
file-structured chunker is within `max` except chunks that are single atomic
lines (no interior newline; only those may exceed the budget, since lines are
never split there), while every chunk of the string-oriented variant is
within `max` unconditionally — but the string variant may split mid-line. -/
theorem claim5_chunk_size_amended (diff : Str) (max ov : Nat)
    (_h : max < diff.length) :
    (∀ c ∈ chunkDiff diff max, max < c.length → nlc ∉ c) ∧
    (∀ c ∈ chunkDiffString diff max ov, c.length ≤ max) :=
  ⟨chunkDiff_no_long_nl diff max, chunkDiffString_length_le diff max ov⟩

/-- Witness for the amended C5 at a concrete over-budget diff. -/
theorem claim5_chunk_size_witness :
    4 < dSmall.length ∧
      ((∀ c ∈ chunkDiff dSmall 4, 4 < c.length → nlc ∉ c) ∧
        (∀ c ∈ chunkDiffString dSmall 4 2, c.length ≤ 4)) :=
  ⟨by decide, claim5_chunk_size_amended dSmall 4 2 (by decide)⟩

/-- **C6** (counterexample): substitution is neither non-recursive nor
literal.  Rendering `{a}` with entries `a ↦ {b}`, `b ↦ x` yields `x` — the
substituted value `{b}` was re-scanned and rewritten by the later entry —
and rendering `{a}` with `a ↦ $&` yields `{a}`, not the value `$&` inserted
character for character. -/
theorem claim6_render_counterexample :
    (buildPrompt (placeholder ['a']) [(['a'], placeholder ['b']), (['b'], ['x'])] =
        ['x'] ∧
      placeholder ['b'] ≠ (['x'] : Str)) ∧
    (buildPrompt (placeholder ['a']) [(['a'], [dlc, ampc])] = placeholder ['a'] ∧
      ([dlc, ampc] : Str) ≠ placeholder ['a']) := by
  decide

/-- **C6** (amended): the renderer substitutes one entry at a time in entry
order, each pass re-scanning the whole current text (so earlier-substituted
values ARE rewritten by later keys, and `$`-patterns in values are expanded,
not inserted literally).  What does hold: a pattern occurring nowhere leaves
the text unchanged; a template containing none of the mapping's placeholders
is returned verbatim (mapping keys absent from the template are silently
ignored, and placeholders with no matching entry stay as they are); and for
a `$`-free value, substitution is global and literal — `{a}{a}` with
`a ↦ v` renders as `v ++ v`. -/
theorem claim6_render_amended :
    (∀ t pat rep : Str, ¬ pat <:+: t → jsReplaceAll t pat rep = t) ∧
    (∀ (vars : List (Str × Str)) (t : Str),
      (∀ kv ∈ vars, ¬ (placeholder kv.1 <:+: t)) → buildPrompt t vars = t) ∧
    (∀ v : Str, dlc ∉ v →
      buildPrompt (placeholder ['a'] ++ placeholder ['a']) [(['a'], v)] = v ++ v) :=
  ⟨fun _ _ _ h => jsReplaceAll_of_not_occurs h,
   fun vars t h => buildPrompt_of_no_placeholder vars t h,
   fun v hv => buildPrompt_global_aa v hv⟩

/-- Witness for the amended C6 at concrete inputs. -/
theorem claim6_render_witness :
    jsReplaceAll (strL "hello") (placeholder ['a']) ['x'] = strL "hello" ∧
    buildPrompt (placeholder ['a'] ++ placeholder ['a']) [(['a'], ['x'])] =
      ['x', 'x'] :=
  ⟨claim6_render_amended.1 (strL "hello") (placeholder ['a']) ['x'] (by decide),
   claim6_render_amended.2.2 ['x'] (by decide)⟩

/-- **C7** (confirmed): an input no longer than the budget (including the
empty string) is returned by the string-oriented chunker as a single,
unmodified chunk. -/
theorem claim7_small_input_single_chunk (d : Str) (max ov : Nat)
    (h : d.length ≤ max) : chunkDiffString d max ov = [d] := by
  unfold chunkDiffString
  rw [if_pos h]

/-- Witness for C7 at a concrete input. -/
theorem claim7_small_input_witness :
    (strL "ab").length ≤ 5 ∧ chunkDiffString (strL "ab") 5 1 = [strL "ab"] :=
  ⟨by decide, claim7_small_input_single_chunk (strL "ab") 5 1 (by decide)⟩

/-- **C8** (counterexample): as stated the claim fails twice.  With
`max = 2, ov = 5` the cursor is clamped and the overlap-dropping
reconstruction loses text (`"abcdef"` comes back as `"ab"`); and even
un-clamped (`max = 4, ov = 2`, `5*(2+1) ≤ 4*4`) the final adjacent pair
`"efg", "g"` shares only 1 character, not exactly `ov = 2`. -/
theorem claim8_overlap_counterexample :
    reconWithOverlap 5 (chunkDiffString (strL "abcdef") 2 5) ≠ strL "abcdef" ∧
    chunkDiffString (strL "abcdefg") 4 2 =
      [strL "abcd", strL "cdef", strL "efg", strL "g"] ∧
    ((strL "g").take 2).length ≠ 2 := by
  decide

/-- **C8** (amended): when the overlap is small enough that the cursor is
never clamped (`5*(ov+1) ≤ 4*max`), each successor window starts `ov`
characters before its predecessor's nominal end, so the first
`min(ov, length)` characters of every chunk are a suffix of the preceding
chunk (exactly `ov` characters except possibly at the final chunk), and
concatenating the first chunk with every later chunk minus its `ov`-sized
duplicated leading region reconstructs the original string. -/
theorem claim8_overlap_roundtrip (d : Str) (max ov : Nat)
    (hlen : max < d.length) (hov : 5 * (ov + 1) ≤ 4 * max) :
    reconWithOverlap ov (chunkDiffString d max ov) = d ∧
    List.Chain' (fun a b => b.take ov <:+ a) (chunkDiffString d max ov) := by
  have hnle : ¬ d.length ≤ max := by omega
  constructor
  · unfold chunkDiffString
    rw [if_neg hnle]
    obtain ⟨m, hm⟩ : ∃ m, d.length = m + 1 := ⟨d.length - 1, by omega⟩
    rw [hm]
    simp only [chunkLoop]
    rw [if_pos (by omega : (0 : Nat) < d.length)]
    have hge : 0 + ov + 1 ≤ selEnd d max 0 := selEnd_ge d max 0 ov hov
    have hmax : Nat.max (0 + 1) (selEnd d max 0 - ov) = selEnd d max 0 - ov :=
      Nat.max_eq_right (by omega)
    rw [hmax]
    simp only [reconWithOverlap]
    rw [chunkLoop_drop_flatten d max ov hov m (selEnd d max 0 - ov) (by omega)]
    have h1 : selEnd d max 0 - ov + ov = selEnd d max 0 := by omega
    rw [h1]
    simp only [List.drop_zero, Nat.sub_zero]
    exact List.take_append_drop _ d
  · unfold chunkDiffString
    rw [if_neg hnle]
    exact chunkLoop_chain d max ov hov d.length 0

/-- Witness for the amended C8 at a concrete over-budget input. -/
theorem claim8_overlap_witness :
    5 < (strL "abcdefghijkl").length ∧
      (reconWithOverlap 1 (chunkDiffString (strL "abcdefghijkl") 5 1) =
          strL "abcdefghijkl" ∧
        List.Chain' (fun a b => b.take 1 <:+ a)
          (chunkDiffString (strL "abcdefghijkl") 5 1)) :=
  ⟨by decide, claim8_overlap_roundtrip (strL "abcdefghijkl") 5 1 (by decide) (by decide)⟩

/-- **C9** (code bug, evaluation at the failing input): the claim (and spec)
says a `diff --git` line whose header does not match the regex makes the
parser skip that file, leaving existing records untouched and unduplicated.
In the code `currentFile` is not reset, so on `dBadHdr` the `+y` line after
the malformed header mutates the already-pushed record for `f` (its
additions become 2 and its content gains `+y`), and the same record is
pushed a second time: the output is the SAME corrupted record twice, instead
of one record with a single `+x` addition. -/
theorem claim9_header_skip_divergence :
    getDiffSummary dBadHdr =
      [⟨strL "f", strL "modified", 2, 0, strL "+x\n+y\n"⟩,
       ⟨strL "f", strL "modified", 2, 0, strL "+x\n+y\n"⟩] := by
  decide

/-- **C10** (confirmed): a chunk whose response parses and passes the schema
contributes its parsed result strings AND the trimmed raw response text
(feeding the merge bullet list twice), while a chunk whose response is not
valid JSON contributes no entry at all; `chunkPassLoop` strings these
contributions together one gateway call per chunk. -/
theorem claim10_chunk_contribution (jp : Str → Option JsonVal) (t : Str) :
    (∀ v rs, jp t = some v → schemaCheck v = some rs →
      chunkContribution jp t = rs ++ [jsTrim t]) ∧
    (jp t = none → chunkContribution jp t = []) ∧
    (∀ (gw : Nat → Str) (c : Str) (rest : List Str) (k : Nat),
      chunkPassLoop jp gw (c :: rest) k =
        chunkContribution jp (gw k) ++ chunkPassLoop jp gw rest (k + 1)) := by
  refine ⟨?_, ?_, fun _ _ _ _ => rfl⟩
  · intro v rs h hs
    simp [chunkContribution, h, hs]
  · intro h
    simp [chunkContribution, h]

/-- Witness for C10 at a concrete schema-valid response. -/
theorem claim10_chunk_contribution_witness :
    chunkContribution jpM (strL "M") = [strL "feat: x"] ++ [jsTrim (strL "M")] :=
  (claim10_chunk_contribution jpM (strL "M")).1 jvOk [strL "feat: x"] rfl rfl
